import Mathlib

/-
  Verification development for the contextify citation-to-annotation
  pipeline (funcs.py).  The Python functions are shallowly embedded as
  executable Lean definitions over an explicit model of a parsed PDF
  document; external collaborators (pymupdf text extraction, the search
  and download services, the embedding model, the completion service)
  are oracles passed in as function arguments.  Python dictionaries are
  modelled as association lists in insertion order, and Python strings
  as Lean strings (or lists of characters where slicing matters).
-/

set_option autoImplicit false

namespace Contextify

universe u v

/-! ## Association-list helpers (Python dict in insertion order) -/

/-- Lookup of the value stored for key k (first, hence unique, binding). -/
def alookup {α : Type u} {β : Type v} [DecidableEq α] (k : α) :
    List (α × β) → Option β
  | [] => none
  | p :: rest => if p.1 = k then some p.2 else alookup k rest

/-- Apply f in place to the value bound to k; identity when k is absent.
    This models a Python dict update of an existing key, which keeps the
    key at its original position. -/
def updateKey {α : Type u} {β : Type v} [DecidableEq α] (k : α) (f : β → β) :
    List (α × β) → List (α × β)
  | [] => []
  | p :: rest => if p.1 = k then (p.1, f p.2) :: rest else p :: updateKey k f rest

/-- Append x to the list bound to k, creating the binding (at the end,
    as dict insertion order does) when k is absent.  This models
    d.setdefault-style creation followed by d[k].append(x). -/
def appendAt {α : Type u} {β : Type v} [DecidableEq α] (k : α) (x : β) :
    List (α × List β) → List (α × List β)
  | [] => [(k, [x])]
  | p :: rest => if p.1 = k then (p.1, p.2 ++ [x]) :: rest else p :: appendAt k x rest

@[simp] theorem alookup_nil {α : Type u} {β : Type v} [DecidableEq α] (k : α) :
    alookup k ([] : List (α × β)) = none := rfl

@[simp] theorem alookup_cons {α : Type u} {β : Type v} [DecidableEq α]
    (k : α) (p : α × β) (rest : List (α × β)) :
    alookup k (p :: rest) = if p.1 = k then some p.2 else alookup k rest := rfl

theorem updateKey_map_fst {α : Type u} {β : Type v} [DecidableEq α]
    (k : α) (f : β → β) (l : List (α × β)) :
    (updateKey k f l).map Prod.fst = l.map Prod.fst := by
  induction l with
  | nil => rfl
  | cons p rest ih =>
      by_cases h : p.1 = k <;> simp [updateKey, h, ih]

theorem alookup_isSome_iff_mem {α : Type u} {β : Type v} [DecidableEq α]
    (k : α) (l : List (α × β)) :
    (alookup k l).isSome = true ↔ k ∈ l.map Prod.fst := by
  induction l with
  | nil => simp [alookup]
  | cons p rest ih =>
      by_cases h : p.1 = k <;> simp [alookup, h, ih]
      exact fun hk => (h hk.symm).elim

/-! ## Constants (funcs.py lines 22-26) -/

def CHUNK_SIZE : Nat := 400
def CHUNK_OVERLAP : Nat := 50
def CHUNK_N : Nat := 2

/-! ## Text utilities for re.sub -/

/-- Model of re.sub("\n", " ", s): replace every newline with a space. -/
def subNewlineSpace (s : String) : String :=
  String.mk (s.data.map (fun c => if c = '\n' then ' ' else c))

/-- Model of re.sub("\n", "", s): delete every newline. -/
def removeNewlines (s : String) : String :=
  String.mk (s.data.filter (fun c => ¬ c = '\n'))

/-! ## PDF document model

A parsed PDF as the two extraction scans see it: a list of pages (each
carrying the optional /Annots array and the mediabox height), the
named-destination table in insertion order, and a text oracle standing
for pymupdf get_textbox (page index and rectangle to extracted text). -/

/-- One entry of a /Annots array, with the fields the code reads.
    The action fields are none when /A (or the key inside it) is absent,
    matching obj.get("/A", dict()).get(...). -/
structure Annot where
  subtype : Option String
  actionS : Option String
  actionD : Option String
  rect : Option (List Int)

structure PdfPage where
  objId : Nat
  mediaboxHeight : Int
  annots : Option (List Annot)

/-- A named destination: the /Left and /Top coordinates and the identity
    of the /Page object it points at. -/
structure Dest where
  left : Int
  top : Int
  pageId : Nat

structure PdfDoc where
  pages : List PdfPage
  namedDests : List (String × Dest)
  textAt : Nat → Int × Int × Int × Int → String

/-- Model of next((i for i, page in enumerate(reader.pages) if page ==
    info["/Page"]), None): index of the first page equal to the target. -/
def resolvePageIndex (pdf : PdfDoc) (pid : Nat) : Option Nat :=
  pdf.pages.findIdx? (fun p => p.objId = pid)

/-- The per-page annotation arrays flattened in document order, paired
    with their page index: exactly the elements visited by the nested
    loops (for page_num, page in enumerate(...); for annot in
    page["/Annots"]), with pages lacking /Annots contributing nothing. -/
def annotStream (pdf : PdfDoc) : List (Nat × Annot) :=
  pdf.pages.enum.flatMap (fun pi => (pi.2.annots.getD []).map (fun a => (pi.1, a)))

/-! ## extract_citations (funcs.py lines 28-53) -/

/-- Model of the Python str.startswith test, phrased on the character
    lists so that it evaluates by kernel reduction. -/
def strStartsWith (s p : String) : Bool :=
  p.data.isPrefixOf s.data

/-- One iteration of the named-destination loop of extract_citations. -/
def citesStep (pdf : PdfDoc) (height : Int) (cites : List (String × String))
    (nd : String × Dest) : List (String × String) :=
  if strStartsWith nd.1 "cite" then
    let x1 := nd.2.left
    let y1 := height - nd.2.top
    match resolvePageIndex pdf nd.2.pageId with
    | some i => cites ++ [(nd.1, pdf.textAt i (x1, y1, x1 + 400, y1 + 20))]
    | none => cites
  else cites

/-- Embedding of extract_citations: walk the named-destination table,
    keep names with the cite naming convention, read the display label
    from a small rectangle near the recorded position on the resolved
    target page, and drop names whose target page does not resolve.
    An empty document returns the empty map at once. -/
def extract_citations (pdf : PdfDoc) : List (String × String) :=
  match pdf.pages with
  | [] => []
  | p0 :: _ => pdf.namedDests.foldl (citesStep pdf p0.mediaboxHeight) []

/-! ## extract_citation_locations (funcs.py lines 93-117) -/

/-- One step of the location scan for a single link annotation. -/
def locStep (locs : List (String × List (Nat × List (List Int))))
    (pa : Nat × Annot) : List (String × List (Nat × List (List Int))) :=
  if pa.2.subtype = some "/Link" ∧ pa.2.actionS = some "/GoTo" then
    match pa.2.actionD with
    | some d =>
        if (alookup d locs).isSome then
          updateKey d (appendAt pa.1 (pa.2.rect.getD [])) locs
        else locs
    | none => locs
  else locs

/-- Embedding of extract_citation_locations: initialize every citation
    key with an empty page map, then scan every page link annotation
    whose action is a GoTo to a known key, appending its /Rect (default
    the empty array) to the per-page rectangle list. -/
def extract_citation_locations (pdf : PdfDoc) (cites : List String) :
    List (String × List (Nat × List (List Int))) :=
  (annotStream pdf).foldl locStep (cites.map (fun c => (c, [])))

/-! ## extract_citation_context (funcs.py lines 120-151) -/

/-- The fixed-band context rectangle around the vertical coordinate r1
    of an anchor, as built by the code: pymupdf.Rect(100, 792 - r1 - 10,
    500, 792 - r1 + 15). -/
def ctxRect (r1 : Int) : Int × Int × Int × Int :=
  (100, 792 - r1 - 10, 500, 792 - r1 + 15)

/-- One step of the context scan.  Reading info[1] from the /Rect array
    (default [0, 0, 0, 0]) raises an IndexError when the array is
    shorter than two entries; the except block logs and re-raises, so
    the error aborts the whole scan. -/
def ctxStep (pdf : PdfDoc) (cites : List String)
    (m : List (String × List (Nat × List String))) (pa : Nat × Annot) :
    Except String (List (String × List (Nat × List String))) :=
  if pa.2.subtype = some "/Link" ∧ pa.2.actionS = some "/GoTo" then
    match pa.2.actionD with
    | some d =>
        if d ∈ cites then
          let info := pa.2.rect.getD [0, 0, 0, 0]
          match info.get? 1 with
          | some r1 =>
              .ok (updateKey d
                (appendAt pa.1 (subNewlineSpace (pdf.textAt pa.1 (ctxRect r1)))) m)
          | none => .error "IndexError"
        else .ok m
    | none => .ok m
  else .ok m

/-- Embedding of extract_citation_context: a second independent scan of
    the same link annotations, producing the whitespace-normalized text
    of the fixed context band of each occurrence. -/
def extract_citation_context (pdf : PdfDoc) (cites : List String) :
    Except String (List (String × List (Nat × List String))) :=
  (annotStream pdf).foldlM (ctxStep pdf cites) (cites.map (fun c => (c, [])))

/-! ## chunk (funcs.py lines 154-163) -/

/-- Loop of chunk: while i + gap <= len(text) emit text[i : i + gap] and
    advance i by gap; afterwards (the loop exit makes the final guard
    i + gap > len(text) always true) emit the remainder text[i:].
    Slices being relative, the loop is recursion on the remaining text.
    The fuel argument only bounds the iteration count so that the
    recursion is structural: whenever 0 < gap the loop runs at most
    len(text) times, so the fuel len(text) + 1 supplied by chunk is
    never exhausted; with gap = 0 the Python loop never terminates. -/
def chunkLoop (gap : Nat) : Nat → List Char → List (List Char)
  | 0, t => [t]
  | fuel + 1, t =>
      if gap ≤ t.length then t.take gap :: chunkLoop gap fuel (t.drop gap)
      else [t]

/-- Embedding of chunk(text, size, overlap). -/
def chunk (text : List Char) (size overlap : Nat) : List (List Char) :=
  chunkLoop (size - overlap) (text.length + 1) text

/-! ## add_annotations (funcs.py lines 275-305) -/

/-- One output free-text annotation, as handed to the pypdf writer. -/
structure OutAnnot where
  pageNumber : Nat
  text : String
  rect : List Int
deriving DecidableEq

/-- The writer result: the pages copied from the reader, the created
    annotations, and the path the output is written to. -/
structure AnnotatedOutput where
  pages : List PdfPage
  annots : List OutAnnot
  outPath : String

/-- Embedding of add_annotations: copy every page, then for each known
    citation, page and occurrence index with a summary present at that
    index, create one annotation whose text is the newline-stripped
    summary and whose rectangle is the occurrence rectangle from the
    location map.  The output is always written to the fixed path
    annotated.pdf; the pdfPath argument is only read from. -/
def add_annotations (pdfPath : String) (pdf : PdfDoc) (cites : List String)
    (locations : List (String × List (Nat × List (List Int))))
    (summaries : List (String × List (Nat × List String))) : AnnotatedOutput :=
  let _ := pdfPath
  { pages := pdf.pages
    annots := cites.flatMap (fun cite =>
      ((alookup cite locations).getD []).flatMap (fun pc =>
        pc.2.enum.filterMap (fun ir =>
          match alookup pc.1 ((alookup cite summaries).getD []) with
          | some l =>
              match l.get? ir.1 with
              | some s => some ⟨pc.1, removeNewlines s, ir.2⟩
              | none => none
          | none => none)))
    outPath := "annotated.pdf" }

/-! ## download_and_retrieve (funcs.py lines 197-222)

External effects are oracles: fetchText maps a citation title to the
whitespace-joined full text of the downloaded reference (none when the
search, the download or the parse fails), and encode maps the chunk
list to the document embedding tensor (none when encoding fails).  Any
such failure is logged and the citation skipped; a missing or empty
BING_API_KEY raises before any citation is processed. -/

def process_chunks (rawText : String) : List String :=
  (chunk (subNewlineSpace rawText).data CHUNK_SIZE CHUNK_OVERLAP).map
    (fun l => String.mk l)

/-- One iteration of the citation loop of download_and_retrieve: fetch
    and chunk the reference text and encode the chunks, extending both
    result maps on success; any failure inside the try block is logged
    and the citation left out of both maps. -/
def drStep {Emb : Type u} (fetchText : String → Option String)
    (encode : List String → Option Emb)
    (et : List (String × Emb) × List (String × List String))
    (ct : String × String) :
    List (String × Emb) × List (String × List String) :=
  match fetchText ct.2 with
  | none => et
  | some text =>
      let chunks := process_chunks text
      match encode chunks with
      | none => et
      | some e => (et.1 ++ [(ct.1, e)], et.2 ++ [(ct.1, chunks)])

def download_and_retrieve {Emb : Type u} (bingKey : Option String)
    (fetchText : String → Option String) (encode : List String → Option Emb)
    (cites : List (String × String)) :
    Except String (List (String × Emb) × List (String × List String)) :=
  if bingKey.getD "" = "" then
    .error "BING_API_KEY not found in environment variables"
  else
    .ok (cites.foldl (drStep fetchText encode) ([], []))

/-! ## n_generate_summaries (funcs.py lines 225-272) -/

/-- Model of the f-string prompt template (funcs.py line 58). -/
def create_summary_prompt (text ctx : String) : String :=
  "Explain the following passage: \"" ++ text ++
    "\" using this context from the paper cited: \"" ++ ctx ++
    "\". CONTEXTUALIZE: "

def pyQuote : String := String.singleton (Char.ofNat 39)

/-- Model of the Python str() rendering of a list of strings, which is
    what the code feeds to the prompt as the retrieved context. -/
def pyStrList (l : List String) : String :=
  "[" ++ String.intercalate ", " (l.map (fun s => pyQuote ++ s ++ pyQuote)) ++ "]"

/-- The oracles of the summarization stage: the query embedder, the
    semantic search (returning the corpus ids of the top CHUNK_N hits in
    rank order), and the chat completion (error when the service call
    raises, ok none when it returns a null message content). -/
structure SummarizeOracle (Emb : Type u) where
  encodeQuery : String → Emb
  search : Emb → Emb → List Nat
  complete : String → Except Unit (Option String)

/-- Processing of one context window: embed it, run semantic search
    against the document embeddings, read the hit chunks out of the
    stored texts (a missing citation entry or an out-of-range corpus id
    raises, exactly as the Python KeyError or IndexError would), build
    the prompt and call the completion service. -/
def occSummary {Emb : Type u} (o : SummarizeOracle Emb) (docEmbeds : Emb)
    (tsOpt : Option (List String)) (context : String) :
    Except Unit (Option String) := do
  let hits := o.search (o.encodeQuery context) docEmbeds
  let items ← hits.mapM (fun i =>
    match tsOpt with
    | none => Except.error ()
    | some ts =>
        match ts.get? i with
        | some s => Except.ok s
        | none => Except.error ())
  o.complete (create_summary_prompt context (pyStrList items))

/-- One iteration of the inner context loop: a truthy completion is
    appended, a falsy one (none or the empty string) is skipped with a
    log line, and a raised exception is re-raised. -/
def occStep {Emb : Type u} (o : SummarizeOracle Emb) (docEmbeds : Emb)
    (tsOpt : Option (List String)) (lst : List String) (context : String) :
    Except Unit (List String) := do
  match ← occSummary o docEmbeds tsOpt context with
  | some s => if s = "" then pure lst else pure (lst ++ [s])
  | none => pure lst

/-- The summary list of one page: contexts processed in order. -/
def pageSummaries {Emb : Type u} (o : SummarizeOracle Emb) (docEmbeds : Emb)
    (tsOpt : Option (List String)) (contexts : List String) :
    Except Unit (List String) :=
  contexts.foldlM (occStep o docEmbeds tsOpt) []

/-- One iteration of the page loop of n_generate_summaries. -/
def ngenPageStep {Emb : Type u} (o : SummarizeOracle Emb) (de : Emb)
    (tsOpt : Option (List String)) (acc : List (Nat × List String))
    (pc : Nat × List String) : Except Unit (List (Nat × List String)) := do
  let lst ← pageSummaries o de tsOpt pc.2
  pure (acc ++ [(pc.1, lst)])

/-- One iteration of the citation loop of n_generate_summaries: a
    citation without stored embeddings is skipped with a warning. -/
def ngenCiteStep {Emb : Type u} (o : SummarizeOracle Emb)
    (embeds : List (String × Emb)) (texts : List (String × List String))
    (summaries : List (String × List (Nat × List String)))
    (cp : String × List (Nat × List String)) :
    Except Unit (List (String × List (Nat × List String))) :=
  match alookup cp.1 embeds with
  | none => pure summaries
  | some de => do
      let pages ← cp.2.foldlM (ngenPageStep o de (alookup cp.1 texts)) []
      pure (summaries ++ [(cp.1, pages)])

/-- Embedding of n_generate_summaries: a missing or empty completion-
    service key is logged and the empty summary map returned (the run is
    not aborted); a citation without embeddings is skipped; otherwise
    every page of the citation gets its summary list in input order. -/
def n_generate_summaries {Emb : Type u} (groqKey : Option String)
    (o : SummarizeOracle Emb) (ctx : List (String × List (Nat × List String)))
    (embeds : List (String × Emb)) (texts : List (String × List String)) :
    Except Unit (List (String × List (Nat × List String))) :=
  if groqKey.getD "" = "" then .ok []
  else ctx.foldlM (ngenCiteStep o embeds texts) []

/-! ## Generic helper lemmas -/

theorem except_bind_ok {ε : Type u} {α β : Type v} (a : α) (f : α → Except ε β) :
    (Except.ok a >>= f) = f a := rfl

theorem except_bind_error {ε : Type u} {α β : Type v} (e : ε) (f : α → Except ε β) :
    ((Except.error e : Except ε α) >>= f) = Except.error e := rfl

theorem except_pure_eq_ok {ε : Type u} {α : Type v} (a : α) :
    (pure a : Except ε α) = Except.ok a := rfl

theorem flatMap_congr_fun {α : Type u} {β : Type v} (l : List α)
    {f g : α → List β} (h : ∀ a, f a = g a) : l.flatMap f = l.flatMap g := by
  induction l with
  | nil => rfl
  | cons a t ih => simp [List.flatMap_cons, h a, ih]

theorem filterMap_congr_fun {α : Type u} {β : Type v} (l : List α)
    {f g : α → Option β} (h : ∀ a, f a = g a) : l.filterMap f = l.filterMap g := by
  induction l with
  | nil => rfl
  | cons a t ih => simp [List.filterMap_cons, h a, ih]

theorem alookup_append_single_ne {α : Type u} {β : Type v} [DecidableEq α]
    {k c : α} (h : ¬ k = c) (l : List (α × β)) (v : β) :
    alookup c (l ++ [(k, v)]) = alookup c l := by
  induction l with
  | nil => simp [alookup, h]
  | cons p rest ih => by_cases hp : p.1 = c <;> simp [alookup, hp, ih]

/-! ## Properties of chunk -/

/-- Reassembly law stated by the spec for overlapping chunks: the first
    chunk followed by every later chunk with its leading overlap
    characters trimmed. -/
def overlapReassemble (overlap : Nat) : List (List Char) → List Char
  | [] => []
  | c :: rest => c ++ rest.flatMap (fun d => d.drop overlap)

/-- Claim C2: the claimed chunking law fails on the code.  With text abcdef,
    size 4 and overlap 2 the code returns disjoint spans of length
    size - overlap = 2 (plus a trailing empty span), not overlapping
    spans of nominal size 4: the first chunk is not the first 4
    characters, and trimming 2 leading characters from each later chunk
    reassembles only ab instead of abcdef. -/
theorem chunk_breaks_overlap_reassembly :
    chunk "abcdef".data 4 2 = ["ab".data, "cd".data, "ef".data, []] ∧
      overlapReassemble 2 (chunk "abcdef".data 4 2) = "ab".data ∧
      ¬ overlapReassemble 2 (chunk "abcdef".data 4 2) = "abcdef".data ∧
      ¬ (chunk "abcdef".data 4 2).get? 0 = some ("abcdef".data.take 4) := by
  refine ⟨rfl, rfl, ?_, ?_⟩ <;> decide

theorem chunkLoop_ne_nil (gap fuel : Nat) (t : List Char) :
    ¬ chunkLoop gap fuel t = [] := by
  cases fuel with
  | zero => simp [chunkLoop]
  | succ n => by_cases h : gap ≤ t.length <;> simp [chunkLoop, h]

theorem chunkLoop_getLast?_of_dvd (gap : Nat) (hg : 0 < gap) :
    ∀ (fuel : Nat) (t : List Char), t.length < fuel → gap ∣ t.length →
      (chunkLoop gap fuel t).getLast? = some [] := by
  intro fuel
  induction fuel with
  | zero => intro t hlt _; omega
  | succ n ih =>
      intro t hlt hdvd
      by_cases h : gap ≤ t.length
      · rw [chunkLoop, if_pos h]
        have hne := chunkLoop_ne_nil gap n (t.drop gap)
        have hrec := ih (t.drop gap)
          (by simp only [List.length_drop]; omega)
          (by simp only [List.length_drop]; exact Nat.dvd_sub' hdvd dvd_rfl)
        obtain ⟨y, ys, hy⟩ := List.exists_cons_of_ne_nil hne
        rw [hy] at hrec ⊢
        rw [List.getLast?_cons_cons]
        exact hrec
      · rw [chunkLoop, if_neg h]
        have h0 : t.length = 0 := Nat.eq_zero_of_dvd_of_lt hdvd (by omega)
        have ht : t = [] := List.length_eq_zero.mp h0
        subst ht
        rfl

/-- Claim C10: for overlap < size the chunk list is never empty (the final
    remainder is always appended after the loop), and whenever the text
    length is a multiple of size - overlap (the empty text included) the
    final chunk is the empty string. -/
theorem chunk_ne_nil_and_trailing_empty (text : List Char) (size overlap : Nat)
    (h : overlap < size) :
    ¬ chunk text size overlap = [] ∧
      ((size - overlap) ∣ text.length →
        (chunk text size overlap).getLast? = some []) := by
  refine ⟨chunkLoop_ne_nil _ _ _, fun hd => ?_⟩
  exact chunkLoop_getLast?_of_dvd (size - overlap) (by omega) (text.length + 1) text
    (by omega) hd

/-- Witness for C10 at text abcd, size 4, overlap 2. -/
theorem chunk_ne_nil_and_trailing_empty_witness :
    2 < 4 ∧
      (¬ chunk "abcd".data 4 2 = [] ∧
        ((4 - 2) ∣ ("abcd".data).length →
          (chunk "abcd".data 4 2).getLast? = some [])) :=
  ⟨by decide, chunk_ne_nil_and_trailing_empty "abcd".data 4 2 (by decide)⟩

/-! ## Key set of extract_citations -/

theorem citesStep_foldl_map_fst (pdf : PdfDoc) (height : Int)
    (dests : List (String × Dest)) :
    ∀ acc : List (String × String),
      (dests.foldl (citesStep pdf height) acc).map Prod.fst =
        acc.map Prod.fst ++ (dests.filter (fun nd =>
          strStartsWith nd.1 "cite" &&
            (resolvePageIndex pdf nd.2.pageId).isSome)).map Prod.fst := by
  induction dests with
  | nil => intro acc; simp
  | cons nd rest ih =>
      intro acc
      rw [List.foldl_cons, ih]
      by_cases hs : strStartsWith nd.1 "cite"
      · cases hres : resolvePageIndex pdf nd.2.pageId with
        | some i => simp [citesStep, hs, hres, List.filter_cons]
        | none => simp [citesStep, hs, hres, List.filter_cons]
      · simp [citesStep, hs, List.filter_cons]

/-- Claim C3, amended: the keys of the citation map are exactly the
    cite-prefixed named-destination names whose target page resolves to
    a page of the document, in table order; names whose page does not
    resolve are dropped, and with no cite-prefixed names the map is
    empty (and, the function being total on a parsed document, no
    exception is raised). -/
theorem extract_citations_keys (pdf : PdfDoc) :
    (extract_citations pdf).map Prod.fst =
      (pdf.namedDests.filter (fun nd =>
        strStartsWith nd.1 "cite" &&
          (resolvePageIndex pdf nd.2.pageId).isSome)).map Prod.fst := by
  cases hp : pdf.pages with
  | nil =>
      have hres : ∀ pid, resolvePageIndex pdf pid = none := by
        intro pid
        unfold resolvePageIndex
        rw [hp]
        rfl
      have hext : extract_citations pdf = [] := by
        unfold extract_citations
        rw [hp]
      rw [hext]
      simp [hres]
  | cons p0 rest =>
      have hext : extract_citations pdf =
          pdf.namedDests.foldl (citesStep pdf p0.mediaboxHeight) [] := by
        unfold extract_citations
        rw [hp]
      rw [hext, citesStep_foldl_map_fst]
      rfl

/-- A document with one page and one cite-prefixed named destination
    whose /Page target resolves to no page of the document. -/
def pdfC3 : PdfDoc :=
  { pages := [{ objId := 0, mediaboxHeight := 792, annots := none }]
    namedDests := [("cite1", { left := 100, top := 200, pageId := 5 })]
    textAt := fun _ _ => "label" }

/-- Counterexample for claim C3: pdfC3 has exactly one cite-prefixed named
    destination, yet extract_citations returns a map with zero keys,
    because the destination page does not resolve. -/
theorem extract_citations_misses_unresolvable_dest :
    (pdfC3.namedDests.filter (fun nd => strStartsWith nd.1 "cite")).length = 1 ∧
      extract_citations pdfC3 = [] :=
  ⟨rfl, rfl⟩

/-! ## Abort behavior of the context scan -/

/-- A document with one link annotation targeting cite1 whose /Rect
    array is malformed: it has a single entry, so reading info[1]
    raises. -/
def pdfC7 : PdfDoc :=
  { pages := [{ objId := 0, mediaboxHeight := 792,
                annots := some [{ subtype := some "/Link", actionS := some "/GoTo",
                                  actionD := some "cite1", rect := some [5] }] }]
    namedDests := [("cite1", { left := 100, top := 200, pageId := 0 })]
    textAt := fun _ _ => "text" }

/-- Claim C7: on a malformed location structure the context scan does not
    degrade to an empty result for the affected citation: the logged
    exception is re-raised and the whole scan aborts with an error,
    while the location scan of the same document succeeds.  This
    contradicts the recoverable-failure behavior that the projects own
    unit test expects of the extraction functions. -/
theorem context_scan_aborts_on_malformed_rect :
    extract_citation_context pdfC7 ["cite1"] = .error "IndexError" ∧
      extract_citation_locations pdfC7 ["cite1"] = [("cite1", [(0, [[5]])])] :=
  ⟨rfl, rfl⟩

/-! ## Credential handling -/

/-- Oracle whose completion service always answers with a null
    content. -/
def oC9 : SummarizeOracle Unit :=
  { encodeQuery := fun _ => ()
    search := fun _ _ => []
    complete := fun _ => .ok none }

/-- Counterexample for claim C9: with the completion-service key present but
    empty (so the client key check fails) and one citation with one
    context window and stored embeddings, n_generate_summaries returns
    normally with an empty summary map instead of failing: the missing
    credential is not fatal and the pipeline continues. -/
theorem missing_completion_key_not_fatal :
    n_generate_summaries (some "") oC9 [("cite1", [(0, ["c"])])]
        [("cite1", ())] [("cite1", ["t"])] = .ok [] :=
  rfl

/-- Claim C9, amended: a missing or empty document-search key makes
    download_and_retrieve raise before any citation is downloaded,
    while a missing or empty completion-service key only makes
    n_generate_summaries log and return the empty summary map; the
    latter failure is not fatal, and neither check runs before citation
    extraction, which precedes both stages in the pipeline. -/
theorem credential_check_behavior {Emb : Type} (bk gk : Option String)
    (fetchText : String → Option String) (encode : List String → Option Emb)
    (cites : List (String × String)) (o : SummarizeOracle Emb)
    (ctx : List (String × List (Nat × List String)))
    (embeds : List (String × Emb)) (texts : List (String × List String))
    (hbk : bk.getD "" = "") (hgk : gk.getD "" = "") :
    download_and_retrieve bk fetchText encode cites =
        .error "BING_API_KEY not found in environment variables" ∧
      n_generate_summaries gk o ctx embeds texts = .ok [] := by
  constructor
  · unfold download_and_retrieve
    rw [if_pos hbk]
  · unfold n_generate_summaries
    rw [if_pos hgk]

/-- Witness for C9 with the BING key absent and the GROQ key empty. -/
theorem credential_check_behavior_witness :
    (none : Option String).getD "" = "" ∧ (some "").getD "" = "" ∧
      (download_and_retrieve none (fun _ => none)
          (fun _ => (none : Option Unit))
          [("cite1", "title")] =
        .error "BING_API_KEY not found in environment variables" ∧
      n_generate_summaries (some "") oC9 [("cite1", [(0, ["c"])])]
          [("cite1", ())] [("cite1", ["t"])] = .ok []) :=
  ⟨rfl, rfl,
    credential_check_behavior none (some "") _ _ _ oC9 _ _ _ rfl rfl⟩

/-! ## Annotation writer -/

/-- Spec-side reading of a summary existing at a (citation, page,
    occurrence-index) triple: the i-th entry of the summary list stored
    for that citation and page, when present. -/
def summaryAt (summaries : List (String × List (Nat × List String)))
    (cite : String) (page : Nat) (i : Nat) : Option String :=
  (alookup page ((alookup cite summaries).getD [])).bind (fun l => l.get? i)

/-- Spec-side annotation list, following the words of the contract of
    the annotation writer: one annotation per (citation, page,
    occurrence-index) triple at which a summary exists, placed at that
    occurrence rectangle recorded in the location map, with newline
    characters removed from the summary text; a triple without a
    summary contributes nothing. -/
def specAnnotations (cites : List String)
    (locations : List (String × List (Nat × List (List Int))))
    (summaries : List (String × List (Nat × List String))) : List OutAnnot :=
  cites.flatMap (fun cite =>
    ((alookup cite locations).getD []).flatMap (fun pc =>
      pc.2.enum.filterMap (fun ir =>
        (summaryAt summaries cite pc.1 ir.1).map
          (fun s => ⟨pc.1, removeNewlines s, ir.2⟩))))

theorem add_annotations_annots_eq (pdfPath : String) (pdf : PdfDoc)
    (cites : List String)
    (locations : List (String × List (Nat × List (List Int))))
    (summaries : List (String × List (Nat × List String))) :
    (add_annotations pdfPath pdf cites locations summaries).annots =
      specAnnotations cites locations summaries := by
  show cites.flatMap _ = specAnnotations cites locations summaries
  unfold specAnnotations
  refine flatMap_congr_fun cites (fun cite => ?_)
  refine flatMap_congr_fun _ (fun pc => ?_)
  refine filterMap_congr_fun _ (fun ir => ?_)
  unfold summaryAt
  cases alookup pc.1 ((alookup cite summaries).getD []) with
  | none => rfl
  | some l => cases hg : l[ir.1]? <;> simp [List.get?_eq_getElem?, hg]

/-- Claim C5: the annotations created by add_annotations are exactly one per
    (citation, page, occurrence-index) triple at which a summary
    exists, each placed at that occurrence recorded rectangle with the
    newline characters removed from its summary text; triples without a
    summary produce no annotation, and the function is total (raises no
    error) on any such input. -/
theorem add_annotations_matches_contract (pdfPath : String) (pdf : PdfDoc)
    (cites : List String)
    (locations : List (String × List (Nat × List (List Int))))
    (summaries : List (String × List (Nat × List String))) :
    (add_annotations pdfPath pdf cites locations summaries).annots =
      specAnnotations cites locations summaries :=
  add_annotations_annots_eq pdfPath pdf cites locations summaries

/-- A one-page document used for the annotation writer facts. -/
def pdfC6 : PdfDoc :=
  { pages := [{ objId := 0, mediaboxHeight := 792, annots := none }]
    namedDests := []
    textAt := fun _ _ => "" }

/-- Counterexample for claim C6: add_annotations always writes to the fixed path
    annotated.pdf, so when the input path is annotated.pdf the result
    is written over the source file rather than to a new file. -/
theorem add_annotations_can_overwrite_source :
    (add_annotations "annotated.pdf" pdfC6 [] [] []).outPath = "annotated.pdf" :=
  rfl

/-- Claim C6, amended: the output holds exactly the input pages (equal page
    count), every created annotation sits at a rectangle read out of
    the location map at its occurrence index on its page, and the
    output path is always the fixed annotated.pdf: the source file is
    untouched exactly when the input path differs from annotated.pdf. -/
theorem add_annotations_frame (pdfPath : String) (pdf : PdfDoc)
    (cites : List String)
    (locations : List (String × List (Nat × List (List Int))))
    (summaries : List (String × List (Nat × List String))) :
    (add_annotations pdfPath pdf cites locations summaries).pages.length =
        pdf.pages.length ∧
      (add_annotations pdfPath pdf cites locations summaries).outPath =
        "annotated.pdf" ∧
      ∀ a ∈ (add_annotations pdfPath pdf cites locations summaries).annots,
        ∃ cite ∈ cites, ∃ pm, alookup cite locations = some pm ∧
          ∃ pc ∈ pm, a.pageNumber = pc.1 ∧ ∃ i, pc.2.get? i = some a.rect := by
  refine ⟨rfl, rfl, ?_⟩
  intro a ha
  rw [add_annotations_annots_eq] at ha
  unfold specAnnotations at ha
  rw [List.mem_flatMap] at ha
  obtain ⟨cite, hcite, ha⟩ := ha
  rw [List.mem_flatMap] at ha
  obtain ⟨pc, hpc, ha⟩ := ha
  rw [List.mem_filterMap] at ha
  obtain ⟨ir, hir, hmk⟩ := ha
  cases hs : summaryAt summaries cite pc.1 ir.1 with
  | none => rw [hs] at hmk; exact absurd hmk (by simp)
  | some s =>
      rw [hs] at hmk
      simp only [Option.map_some'] at hmk
      have haeq : (⟨pc.1, removeNewlines s, ir.2⟩ : OutAnnot) = a :=
        Option.some.inj hmk
      subst haeq
      cases hmal : alookup cite locations with
      | none => rw [hmal] at hpc; simp at hpc
      | some pm =>
          refine ⟨cite, hcite, pm, hmal, pc, ?_, rfl, ir.1, ?_⟩
          · rw [hmal] at hpc; exact hpc
          · rw [List.get?_eq_getElem?]
            exact List.mem_enum_iff_getElem?.mp hir

/-- Witness for C6 on a concrete input with one annotation created. -/
theorem add_annotations_frame_witness :
    (add_annotations "in.pdf" pdfC6 ["cite1"]
          [("cite1", [(0, [[10, 20, 30, 40]])])]
          [("cite1", [(0, ["S"])])]).pages.length = pdfC6.pages.length ∧
      (add_annotations "in.pdf" pdfC6 ["cite1"]
          [("cite1", [(0, [[10, 20, 30, 40]])])]
          [("cite1", [(0, ["S"])])]).outPath = "annotated.pdf" ∧
      ∀ a ∈ (add_annotations "in.pdf" pdfC6 ["cite1"]
          [("cite1", [(0, [[10, 20, 30, 40]])])]
          [("cite1", [(0, ["S"])])]).annots,
        ∃ cite ∈ ["cite1"], ∃ pm,
          alookup cite [("cite1", [(0, [[10, 20, 30, 40]])])] = some pm ∧
          ∃ pc ∈ pm, a.pageNumber = pc.1 ∧ ∃ i, pc.2.get? i = some a.rect :=
  add_annotations_frame "in.pdf" pdfC6 ["cite1"]
    [("cite1", [(0, [[10, 20, 30, 40]])])] [("cite1", [(0, ["S"])])]

/-! ## Ordering and alignment of n_generate_summaries -/

/-- The value contribution of one context window to the summary list:
    some s when the completion returns a truthy text s, none when it
    returns a falsy result (which the code skips) and none for a raised
    exception (which in fact aborts the whole run). -/
def occOutcome {Emb : Type u} (o : SummarizeOracle Emb) (de : Emb)
    (tsOpt : Option (List String)) (context : String) : Option String :=
  match occSummary o de tsOpt context with
  | .ok (some s) => if s = "" then none else some s
  | _ => none

/-- The summary entry the run produces for one citation of the context
    map, none when the citation has no stored embeddings. -/
def expectedCite {Emb : Type u} (o : SummarizeOracle Emb)
    (embeds : List (String × Emb)) (texts : List (String × List String))
    (cp : String × List (Nat × List String)) :
    Option (String × List (Nat × List String)) :=
  (alookup cp.1 embeds).map (fun de =>
    (cp.1, cp.2.map (fun pc =>
      (pc.1, pc.2.filterMap (occOutcome o de (alookup cp.1 texts))))))

theorem occStep_error {Emb : Type u} (o : SummarizeOracle Emb) (de : Emb)
    (tsOpt : Option (List String)) (lst : List String) (c : String) (e : Unit)
    (h : occSummary o de tsOpt c = .error e) :
    occStep o de tsOpt lst c = .error e := by
  unfold occStep
  rw [h]
  rfl

theorem occStep_ok_none {Emb : Type u} (o : SummarizeOracle Emb) (de : Emb)
    (tsOpt : Option (List String)) (lst : List String) (c : String)
    (h : occSummary o de tsOpt c = .ok none) :
    occStep o de tsOpt lst c = .ok lst := by
  unfold occStep
  rw [h]
  rfl

theorem occStep_ok_some {Emb : Type u} (o : SummarizeOracle Emb) (de : Emb)
    (tsOpt : Option (List String)) (lst : List String) (c : String) (s : String)
    (h : occSummary o de tsOpt c = .ok (some s)) :
    occStep o de tsOpt lst c =
      if s = "" then .ok lst else .ok (lst ++ [s]) := by
  unfold occStep
  rw [h]
  by_cases hs : s = "" <;>
    simp [hs, except_bind_ok, except_pure_eq_ok]

theorem pageFold_ok {Emb : Type u} (o : SummarizeOracle Emb) (de : Emb)
    (tsOpt : Option (List String)) :
    ∀ (cs : List String) (acc l : List String),
      cs.foldlM (occStep o de tsOpt) acc = .ok l →
      l = acc ++ cs.filterMap (occOutcome o de tsOpt) := by
  intro cs
  induction cs with
  | nil =>
      intro acc l h
      simp only [List.foldlM_nil, except_pure_eq_ok, Except.ok.injEq] at h
      subst h
      simp
  | cons c cs ih =>
      intro acc l h
      rw [List.foldlM_cons] at h
      cases hocc : occSummary o de tsOpt c with
      | error e =>
          rw [occStep_error o de tsOpt acc c e hocc, except_bind_error] at h
          exact Except.noConfusion h
      | ok r =>
          cases r with
          | none =>
              rw [occStep_ok_none o de tsOpt acc c hocc, except_bind_ok] at h
              have := ih acc l h
              rw [List.filterMap_cons]
              have ho : occOutcome o de tsOpt c = none := by
                unfold occOutcome
                rw [hocc]
              rw [ho]
              exact this
          | some s =>
              rw [occStep_ok_some o de tsOpt acc c s hocc] at h
              have ho : occOutcome o de tsOpt c =
                  if s = "" then none else some s := by
                unfold occOutcome
                rw [hocc]
              by_cases hs : s = ""
              · rw [if_pos hs, except_bind_ok] at h
                have := ih acc l h
                rw [List.filterMap_cons, ho, if_pos hs]
                exact this
              · rw [if_neg hs, except_bind_ok] at h
                have := ih (acc ++ [s]) l h
                rw [List.filterMap_cons, ho, if_neg hs]
                rw [this, List.append_assoc]
                rfl

theorem pagesFold_ok {Emb : Type u} (o : SummarizeOracle Emb) (de : Emb)
    (tsOpt : Option (List String)) :
    ∀ (pages : List (Nat × List String)) (acc r : List (Nat × List String)),
      pages.foldlM (ngenPageStep o de tsOpt) acc = .ok r →
      r = acc ++ pages.map (fun pc =>
        (pc.1, pc.2.filterMap (occOutcome o de tsOpt))) := by
  intro pages
  induction pages with
  | nil =>
      intro acc r h
      simp only [List.foldlM_nil, except_pure_eq_ok, Except.ok.injEq] at h
      subst h
      simp
  | cons pc pages ih =>
      intro acc r h
      rw [List.foldlM_cons] at h
      cases hps : pageSummaries o de tsOpt pc.2 with
      | error e =>
          have hstep : ngenPageStep o de tsOpt acc pc = .error e := by
            unfold ngenPageStep
            rw [hps]
            rfl
          rw [hstep, except_bind_error] at h
          exact Except.noConfusion h
      | ok lst =>
          have hstep : ngenPageStep o de tsOpt acc pc =
              .ok (acc ++ [(pc.1, lst)]) := by
            unfold ngenPageStep
            rw [hps]
            rfl
          rw [hstep, except_bind_ok] at h
          have hrec := ih (acc ++ [(pc.1, lst)]) r h
          have hlst : lst = pc.2.filterMap (occOutcome o de tsOpt) :=
            pageFold_ok o de tsOpt pc.2 [] lst hps
          rw [hrec, hlst, List.map_cons, List.append_assoc]
          rfl

theorem citesFold_ok {Emb : Type u} (o : SummarizeOracle Emb)
    (embeds : List (String × Emb)) (texts : List (String × List String)) :
    ∀ (ctx acc m : List (String × List (Nat × List String))),
      ctx.foldlM (ngenCiteStep o embeds texts) acc = .ok m →
      m = acc ++ ctx.filterMap (expectedCite o embeds texts) := by
  intro ctx
  induction ctx with
  | nil =>
      intro acc m h
      simp only [List.foldlM_nil, except_pure_eq_ok, Except.ok.injEq] at h
      subst h
      simp
  | cons cp ctx ih =>
      intro acc m h
      rw [List.foldlM_cons] at h
      cases he : alookup cp.1 embeds with
      | none =>
          have hstep : ngenCiteStep o embeds texts acc cp = .ok acc := by
            unfold ngenCiteStep
            rw [he]
            rfl
          rw [hstep, except_bind_ok] at h
          have := ih acc m h
          rw [List.filterMap_cons]
          have hexp : expectedCite o embeds texts cp = none := by
            unfold expectedCite
            rw [he]
            rfl
          rw [hexp]
          exact this
      | some de =>
          cases hpf : cp.2.foldlM (ngenPageStep o de (alookup cp.1 texts)) [] with
          | error e =>
              have hstep : ngenCiteStep o embeds texts acc cp = .error e := by
                simp only [ngenCiteStep, he, hpf, except_bind_error]
              rw [hstep, except_bind_error] at h
              exact Except.noConfusion h
          | ok pages =>
              have hstep : ngenCiteStep o embeds texts acc cp =
                  .ok (acc ++ [(cp.1, pages)]) := by
                simp only [ngenCiteStep, he, hpf, except_bind_ok,
                  except_pure_eq_ok]
              rw [hstep, except_bind_ok] at h
              have hrec := ih (acc ++ [(cp.1, pages)]) m h
              have hpages := pagesFold_ok o de (alookup cp.1 texts) cp.2 [] pages hpf
              have hexp : expectedCite o embeds texts cp =
                  some (cp.1, cp.2.map (fun pc =>
                    (pc.1, pc.2.filterMap (occOutcome o de (alookup cp.1 texts))))) := by
                unfold expectedCite
                rw [he]
                rfl
              rw [hrec, List.filterMap_cons, hexp, hpages, List.append_assoc]
              simp

/-- Claim C4, amended: when the run succeeds, summaries for each citation
    and page are produced in the same order as the input ContextWindow
    lists, but a falsy completion result is omitted instead of holding
    its slot: each page entry is the in-order filterMap of successful
    non-empty summaries over its ContextWindows, so the summary list is
    shorter than the ContextWindow list whenever an occurrence fails,
    and occurrence indices drift.  A raised service exception instead
    aborts the whole run. -/
theorem n_generate_summaries_filterMap {Emb : Type u} (gk : Option String)
    (o : SummarizeOracle Emb) (ctx : List (String × List (Nat × List String)))
    (embeds : List (String × Emb)) (texts : List (String × List String))
    (m : List (String × List (Nat × List String)))
    (hgk : ¬ gk.getD "" = "")
    (h : n_generate_summaries gk o ctx embeds texts = .ok m) :
    m = ctx.filterMap (expectedCite o embeds texts) := by
  unfold n_generate_summaries at h
  rw [if_neg hgk] at h
  exact citesFold_ok o embeds texts ctx [] m h

/-- Oracle whose completion service always answers with a null message
    content, the falsy case the summary loop skips. -/
def oC4 : SummarizeOracle Unit :=
  { encodeQuery := fun _ => ()
    search := fun _ _ => []
    complete := fun _ => .ok none }

/-- The one-citation, one-page, one-occurrence context map of the C4
    counterexample. -/
def ctxC4 : List (String × List (Nat × List String)) := [("cite1", [(0, ["c1"])])]

/-- Counterexample for claim C4: a run that succeeds (no exception) but whose
    completion returns a falsy result leaves the summary list of the
    page empty (length 0) while the ContextWindow list has length 1:
    the failed occurrence does not occupy its slot, so the claimed
    index alignment fails. -/
theorem n_generate_summaries_drops_slot :
    ((n_generate_summaries (some "gk") oC4 ctxC4 [("cite1", ())]
          [("cite1", ["t1"])]).toOption.bind
        (fun m => (alookup "cite1" m).bind (alookup 0))).map List.length =
        some 0 ∧
      ((alookup "cite1" ctxC4).bind (alookup 0)).map List.length = some 1 :=
  ⟨rfl, rfl⟩

/-- Oracle whose completion service always answers with the fixed text
    S. -/
def oC4w : SummarizeOracle Unit :=
  { encodeQuery := fun _ => ()
    search := fun _ _ => []
    complete := fun _ => .ok (some "S") }

/-- Witness for C4 on a successful one-occurrence run. -/
theorem n_generate_summaries_filterMap_witness :
    ¬ (some "gk" : Option String).getD "" = "" ∧
      [("cite1", [(0, ["S"])])] =
        ctxC4.filterMap (expectedCite oC4w [("cite1", ())] [("cite1", ["t1"])]) :=
  ⟨by decide,
    n_generate_summaries_filterMap (some "gk") oC4w ctxC4 [("cite1", ())]
      [("cite1", ["t1"])] [("cite1", [(0, ["S"])])] (by decide) rfl⟩

/-! ## Isolation of a citation with no retrievable reference text -/

def exceptOk {ε : Type u} {α : Type v} : Except ε α → Bool
  | .ok _ => true
  | .error _ => false

/-- A run in which no processed occurrence raises: for every citation
    of the context map that has stored embeddings, every occurrence of
    every page yields a non-raising completion call.  This isolates the
    retrieval failure under study from unrelated service exceptions. -/
def RunsClean {Emb : Type u} (o : SummarizeOracle Emb)
    (embeds : List (String × Emb)) (texts : List (String × List String))
    (ctx : List (String × List (Nat × List String))) : Prop :=
  ∀ cp ∈ ctx, ∀ de : Emb, alookup cp.1 embeds = some de →
    ∀ pc ∈ cp.2, ∀ c ∈ pc.2,
      exceptOk (occSummary o de (alookup cp.1 texts) c) = true

theorem drFold_not_mem {Emb : Type u} (fetchText : String → Option String)
    (encode : List String → Option Emb) (c : String) :
    ∀ (cites : List (String × String))
      (acc : List (String × Emb) × List (String × List String)),
      (∀ t, (c, t) ∈ cites →
        (fetchText t).bind (fun text => encode (process_chunks text)) = none) →
      alookup c acc.1 = none →
      alookup c ((cites.foldl (drStep fetchText encode) acc).1) = none := by
  intro cites
  induction cites with
  | nil => intro acc _ h0; exact h0
  | cons ct cites ih =>
      intro acc hfail h0
      rw [List.foldl_cons]
      refine ih _ (fun t ht => hfail t (List.mem_cons_of_mem _ ht)) ?_
      cases hf : fetchText ct.2 with
      | none => simp only [drStep, hf]; exact h0
      | some text =>
          cases he : encode (process_chunks text) with
          | none => simp only [drStep, hf, he]; exact h0
          | some e =>
              have hne : ¬ ct.1 = c := by
                intro hq
                have hcontra : (fetchText ct.2).bind
                    (fun text => encode (process_chunks text)) = none := by
                  refine hfail ct.2 ?_
                  rw [← hq]
                  exact List.mem_cons_self _ _
                rw [hf] at hcontra
                have henc : encode (process_chunks text) = none := hcontra
                rw [henc] at he
                exact Option.noConfusion he
              simp only [drStep, hf, he]
              show alookup c (acc.1 ++ [(ct.1, e)]) = none
              rw [alookup_append_single_ne hne]
              exact h0

theorem pageFold_exists_ok {Emb : Type u} (o : SummarizeOracle Emb) (de : Emb)
    (tsOpt : Option (List String)) :
    ∀ cs : List String,
      (∀ c ∈ cs, exceptOk (occSummary o de tsOpt c) = true) →
      ∀ acc, ∃ l, cs.foldlM (occStep o de tsOpt) acc = .ok l := by
  intro cs
  induction cs with
  | nil =>
      intro _ acc
      exact ⟨acc, by simp [List.foldlM_nil, except_pure_eq_ok]⟩
  | cons c cs ih =>
      intro hok acc
      have hc := hok c (List.mem_cons_self _ _)
      have htail := fun x hx => hok x (List.mem_cons_of_mem _ hx)
      cases hocc : occSummary o de tsOpt c with
      | error e => rw [hocc] at hc; exact absurd hc (by simp [exceptOk])
      | ok r =>
          cases r with
          | none =>
              obtain ⟨l, hl⟩ := ih htail acc
              exact ⟨l, by
                rw [List.foldlM_cons, occStep_ok_none o de tsOpt acc c hocc,
                  except_bind_ok]
                exact hl⟩
          | some s =>
              by_cases hs : s = ""
              · obtain ⟨l, hl⟩ := ih htail acc
                exact ⟨l, by
                  rw [List.foldlM_cons, occStep_ok_some o de tsOpt acc c s hocc,
                    if_pos hs, except_bind_ok]
                  exact hl⟩
              · obtain ⟨l, hl⟩ := ih htail (acc ++ [s])
                exact ⟨l, by
                  rw [List.foldlM_cons, occStep_ok_some o de tsOpt acc c s hocc,
                    if_neg hs, except_bind_ok]
                  exact hl⟩

theorem pagesFold_exists_ok {Emb : Type u} (o : SummarizeOracle Emb) (de : Emb)
    (tsOpt : Option (List String)) :
    ∀ pages : List (Nat × List String),
      (∀ pc ∈ pages, ∀ c ∈ pc.2, exceptOk (occSummary o de tsOpt c) = true) →
      ∀ acc, ∃ r, pages.foldlM (ngenPageStep o de tsOpt) acc = .ok r := by
  intro pages
  induction pages with
  | nil =>
      intro _ acc
      exact ⟨acc, by simp [List.foldlM_nil, except_pure_eq_ok]⟩
  | cons pc pages ih =>
      intro hok acc
      obtain ⟨lst, hlst⟩ := pageFold_exists_ok o de tsOpt pc.2
        (hok pc (List.mem_cons_self _ _)) []
      have hstep : ngenPageStep o de tsOpt acc pc = .ok (acc ++ [(pc.1, lst)]) := by
        unfold ngenPageStep pageSummaries
        rw [hlst]
        rfl
      obtain ⟨r, hr⟩ := ih (fun x hx => hok x (List.mem_cons_of_mem _ hx))
        (acc ++ [(pc.1, lst)])
      exact ⟨r, by rw [List.foldlM_cons, hstep, except_bind_ok]; exact hr⟩

theorem citesFold_exists_ok {Emb : Type u} (o : SummarizeOracle Emb)
    (embeds : List (String × Emb)) (texts : List (String × List String)) :
    ∀ ctx : List (String × List (Nat × List String)),
      RunsClean o embeds texts ctx →
      ∀ acc, ∃ m, ctx.foldlM (ngenCiteStep o embeds texts) acc = .ok m := by
  intro ctx
  induction ctx with
  | nil =>
      intro _ acc
      exact ⟨acc, by simp [List.foldlM_nil, except_pure_eq_ok]⟩
  | cons cp ctx ih =>
      intro hclean acc
      have htail : RunsClean o embeds texts ctx :=
        fun x hx => hclean x (List.mem_cons_of_mem _ hx)
      cases he : alookup cp.1 embeds with
      | none =>
          obtain ⟨m, hm⟩ := ih htail acc
          refine ⟨m, ?_⟩
          rw [List.foldlM_cons]
          have hstep : ngenCiteStep o embeds texts acc cp = .ok acc := by
            simp only [ngenCiteStep, he, except_pure_eq_ok]
          rw [hstep, except_bind_ok]
          exact hm
      | some de =>
          obtain ⟨pages, hpages⟩ := pagesFold_exists_ok o de (alookup cp.1 texts)
            cp.2 (hclean cp (List.mem_cons_self _ _) de he) []
          obtain ⟨m, hm⟩ := ih htail (acc ++ [(cp.1, pages)])
          refine ⟨m, ?_⟩
          rw [List.foldlM_cons]
          have hstep : ngenCiteStep o embeds texts acc cp =
              .ok (acc ++ [(cp.1, pages)]) := by
            simp only [ngenCiteStep, he, hpages, except_bind_ok,
              except_pure_eq_ok]
          rw [hstep, except_bind_ok]
          exact hm

theorem alookup_filterMap_expected_none {Emb : Type u}
    (o : SummarizeOracle Emb) (embeds : List (String × Emb))
    (texts : List (String × List String)) (c : String)
    (h : alookup c embeds = none) :
    ∀ ctx : List (String × List (Nat × List String)),
      alookup c (ctx.filterMap (expectedCite o embeds texts)) = none := by
  intro ctx
  induction ctx with
  | nil => rfl
  | cons cp ctx ih =>
      rw [List.filterMap_cons]
      cases he : alookup cp.1 embeds with
      | none =>
          have hexp : expectedCite o embeds texts cp = none := by
            unfold expectedCite
            rw [he]
            rfl
          rw [hexp]
          exact ih
      | some de =>
          have hexp : expectedCite o embeds texts cp =
              some (cp.1, cp.2.map (fun pc =>
                (pc.1, pc.2.filterMap (occOutcome o de (alookup cp.1 texts))))) := by
            unfold expectedCite
            rw [he]
            rfl
          rw [hexp]
          have hne : ¬ cp.1 = c := by
            intro hq
            rw [hq, h] at he
            exact Option.noConfusion he
          rw [alookup_cons, if_neg hne]
          exact ih

theorem alookup_filterMap_expected_isSome {Emb : Type u}
    (o : SummarizeOracle Emb) (embeds : List (String × Emb))
    (texts : List (String × List String)) :
    ∀ (ctx : List (String × List (Nat × List String)))
      (cp : String × List (Nat × List String)), cp ∈ ctx →
      (alookup cp.1 embeds).isSome = true →
      (alookup cp.1 (ctx.filterMap (expectedCite o embeds texts))).isSome =
        true := by
  intro ctx
  induction ctx with
  | nil => intro cp h; exact absurd h (by simp)
  | cons hd ctx ih =>
      intro cp hmem hsome
      rw [List.filterMap_cons]
      by_cases hk : hd.1 = cp.1
      · have hsome2 : (alookup hd.1 embeds).isSome = true := by
          rw [hk]
          exact hsome
        cases he : alookup hd.1 embeds with
        | none => rw [he] at hsome2; exact absurd hsome2 (by simp)
        | some de =>
            have hexp : expectedCite o embeds texts hd =
                some (hd.1, hd.2.map (fun pc =>
                  (pc.1, pc.2.filterMap (occOutcome o de (alookup hd.1 texts))))) := by
              unfold expectedCite
              rw [he]
              rfl
            rw [hexp, alookup_cons, if_pos hk]
            rfl
      · have hmem2 : cp ∈ ctx := by
          rcases List.mem_cons.mp hmem with hq | hq
          · exact absurd (by rw [hq]) hk
          · exact hq
        cases hexp : expectedCite o embeds texts hd with
        | none => exact ih cp hmem2 hsome
        | some entry =>
            have hkey : entry.1 = hd.1 := by
              unfold expectedCite at hexp
              cases halo : alookup hd.1 embeds with
              | none => rw [halo] at hexp; exact Option.noConfusion hexp
              | some de =>
                  rw [halo] at hexp
                  simp only [Option.map_some', Option.some.injEq] at hexp
                  rw [← hexp]
            have hne : ¬ entry.1 = cp.1 := by
              rw [hkey]
              exact hk
            rw [alookup_cons, if_neg hne]
            exact ih cp hmem2 hsome

/-- Claim C8: a citation that yields no retrievable reference text, in
    any of the covered modes (no search result, no download link or a
    failed download, so the fetch gives nothing, or a successful fetch
    whose chunks the embedding step fails to encode), ends up with no
    stored embeddings, is skipped by the summarization stage (its
    summary set is empty: it has no entry in the summary map), and the
    run still completes, producing a summary entry for every citation
    that does have stored embeddings.  The hypothesis states precisely
    that the fetch-then-encode pipeline of the try block produces
    nothing for the citation, covering both failure points. -/
theorem retrieval_failure_isolated {Emb : Type u} (bk gk : Option String)
    (fetchText : String → Option String) (encode : List String → Option Emb)
    (cites : List (String × String)) (o : SummarizeOracle Emb)
    (ctx : List (String × List (Nat × List String)))
    (embeds : List (String × Emb)) (texts : List (String × List String))
    (c : String)
    (hgk : ¬ gk.getD "" = "")
    (hdr : download_and_retrieve bk fetchText encode cites = .ok (embeds, texts))
    (hfail : ∀ t, (c, t) ∈ cites →
      (fetchText t).bind (fun text => encode (process_chunks text)) = none)
    (hclean : RunsClean o embeds texts ctx) :
    alookup c embeds = none ∧
      ∃ m, n_generate_summaries gk o ctx embeds texts = .ok m ∧
        alookup c m = none ∧
        ∀ cp ∈ ctx, (alookup cp.1 embeds).isSome = true →
          (alookup cp.1 m).isSome = true := by
  have hemb : alookup c embeds = none := by
    unfold download_and_retrieve at hdr
    by_cases hbk : bk.getD "" = ""
    · rw [if_pos hbk] at hdr
      exact Except.noConfusion hdr
    · rw [if_neg hbk] at hdr
      have hpair := Except.ok.inj hdr
      have h1 : (cites.foldl (drStep fetchText encode) ([], [])).1 = embeds :=
        congrArg Prod.fst hpair
      rw [← h1]
      exact drFold_not_mem fetchText encode c cites ([], []) hfail rfl
  refine ⟨hemb, ?_⟩
  obtain ⟨m, hm⟩ := citesFold_exists_ok o embeds texts ctx hclean []
  have hval := citesFold_ok o embeds texts ctx [] m hm
  rw [List.nil_append] at hval
  refine ⟨m, ?_, ?_, ?_⟩
  · unfold n_generate_summaries
    rw [if_neg hgk]
    exact hm
  · rw [hval]
    exact alookup_filterMap_expected_none o embeds texts c hemb ctx
  · intro cp hcp hsome
    rw [hval]
    exact alookup_filterMap_expected_isSome o embeds texts ctx cp hcp hsome

/-- The concrete retrieval-failure scenario: the reference text of
    citeB downloads fine but its chunks fail to encode (the embedding-
    failure mode), while citeA succeeds end to end. -/
def fetchC8 : String → Option String := fun t =>
  if t = "tA" then some "x" else if t = "tB" then some "y" else none

/-- Embedding oracle that fails exactly on the chunk list of the citeB
    reference text. -/
def encodeC8 : List String → Option Unit := fun chs =>
  if chs = ["y"] then none else some ()

def citesC8 : List (String × String) := [("citeA", "tA"), ("citeB", "tB")]

def ctxC8 : List (String × List (Nat × List String)) :=
  [("citeA", [(0, ["w"])]), ("citeB", [(0, ["v"])])]

def oC8 : SummarizeOracle Unit :=
  { encodeQuery := fun _ => ()
    search := fun _ _ => []
    complete := fun _ => .ok (some "S") }

/-- Witness for C8 on the concrete scenario. -/
theorem retrieval_failure_isolated_witness :
    alookup "citeB" [("citeA", ())] = none ∧
      ∃ m, n_generate_summaries (some "gk") oC8 ctxC8 [("citeA", ())]
          [("citeA", ["x"])] = .ok m ∧
        alookup "citeB" m = none ∧
        ∀ cp ∈ ctxC8, (alookup cp.1 [("citeA", ())]).isSome = true →
          (alookup cp.1 m).isSome = true :=
  retrieval_failure_isolated (some "bk") (some "gk") fetchC8
    encodeC8 citesC8 oC8 ctxC8 [("citeA", ())] [("citeA", ["x"])]
    "citeB" (by decide) rfl
    (by
      intro t ht
      rcases List.mem_cons.mp ht with h1 | h2
      · have hx : ("citeB" : String) = "citeA" := congrArg Prod.fst h1
        exact absurd hx (by decide)
      · rcases List.mem_cons.mp h2 with h3 | h4
        · have ht2 : t = "tB" := congrArg Prod.snd h3
          rw [ht2]
          rfl
        · exact absurd h4 (by simp))
    (by intro cp hcp de hde pc hpc cw hcw; rfl)

/-! ## Alignment of the two annotation scans -/

/-- Per-page alignment: same page keys in the same order, and for each
    page the rectangle list and the snippet list have equal length. -/
def PageListAligned (pl : List (Nat × List (List Int)))
    (pc : List (Nat × List String)) : Prop :=
  List.Forall₂ (fun x y => x.1 = y.1 ∧ x.2.length = y.2.length) pl pc

/-- Map alignment: same citation keys in the same order, with aligned
    page maps. -/
def Aligned (l : List (String × List (Nat × List (List Int))))
    (c : List (String × List (Nat × List String))) : Prop :=
  List.Forall₂ (fun a b => a.1 = b.1 ∧ PageListAligned a.2 b.2) l c

theorem pageListAligned_appendAt (p : Nat) (r : List Int) (s : String)
    {pl : List (Nat × List (List Int))} {pc : List (Nat × List String)}
    (h : PageListAligned pl pc) :
    PageListAligned (appendAt p r pl) (appendAt p s pc) := by
  induction h with
  | nil => exact List.Forall₂.cons ⟨rfl, by simp⟩ List.Forall₂.nil
  | @cons x y xs ys hxy htail ih =>
      by_cases hx : x.1 = p
      · have hy : y.1 = p := by rw [← hxy.1]; exact hx
        simp only [appendAt, if_pos hx, if_pos hy]
        refine List.Forall₂.cons ⟨hxy.1, ?_⟩ htail
        simp [hxy.2]
      · have hy : ¬ y.1 = p := by rw [← hxy.1]; exact hx
        simp only [appendAt, if_neg hx, if_neg hy]
        exact List.Forall₂.cons hxy ih

theorem aligned_updateKey (d : String) (p : Nat) (r : List Int) (s : String)
    {l : List (String × List (Nat × List (List Int)))}
    {c : List (String × List (Nat × List String))} (h : Aligned l c) :
    Aligned (updateKey d (appendAt p r) l) (updateKey d (appendAt p s) c) := by
  induction h with
  | nil => exact List.Forall₂.nil
  | @cons a b l2 c2 hab htail ih =>
      by_cases ha : a.1 = d
      · have hb : b.1 = d := by rw [← hab.1]; exact ha
        simp only [updateKey, if_pos ha, if_pos hb]
        exact List.Forall₂.cons ⟨hab.1, pageListAligned_appendAt p r s hab.2⟩ htail
      · have hb : ¬ b.1 = d := by rw [← hab.1]; exact ha
        simp only [updateKey, if_neg ha, if_neg hb]
        exact List.Forall₂.cons hab ih

theorem aligned_map_fst
    {l : List (String × List (Nat × List (List Int)))}
    {c : List (String × List (Nat × List String))} (h : Aligned l c) :
    l.map Prod.fst = c.map Prod.fst := by
  induction h with
  | nil => rfl
  | cons hab _ ih => simp only [List.map_cons, hab.1, ih]

theorem aligned_init (cites : List String) :
    Aligned (cites.map fun c => (c, [])) (cites.map fun c => (c, [])) := by
  induction cites with
  | nil => exact List.Forall₂.nil
  | cons c cs ih => exact List.Forall₂.cons ⟨rfl, List.Forall₂.nil⟩ ih

theorem scan_fold_aligned (pdf : PdfDoc) (cites : List String) :
    ∀ (stream : List (Nat × Annot))
      (l : List (String × List (Nat × List (List Int))))
      (cm m : List (String × List (Nat × List String))),
      Aligned l cm → l.map Prod.fst = cites →
      stream.foldlM (ctxStep pdf cites) cm = .ok m →
      Aligned (stream.foldl locStep l) m := by
  intro stream
  induction stream with
  | nil =>
      intro l cm m hal hkeys h
      simp only [List.foldlM_nil, except_pure_eq_ok, Except.ok.injEq] at h
      subst h
      simpa [List.foldl_nil] using hal
  | cons pa stream ih =>
      intro l cm m hal hkeys h
      rw [List.foldlM_cons] at h
      rw [List.foldl_cons]
      by_cases hg : pa.2.subtype = some "/Link" ∧ pa.2.actionS = some "/GoTo"
      · cases hd : pa.2.actionD with
        | none =>
            have hcs : ctxStep pdf cites cm pa = .ok cm := by
              simp [ctxStep, hg, hd]
            have hls : locStep l pa = l := by
              simp [locStep, hg, hd]
            rw [hcs, except_bind_ok] at h
            rw [hls]
            exact ih l cm m hal hkeys h
        | some d =>
            by_cases hdc : d ∈ cites
            · have hdl : (alookup d l).isSome = true := by
                rw [alookup_isSome_iff_mem, hkeys]
                exact hdc
              cases hr : (pa.2.rect.getD [0, 0, 0, 0])[1]? with
              | none =>
                  have hcs : ctxStep pdf cites cm pa = .error "IndexError" := by
                    simp [ctxStep, hg, hd, hdc, List.get?_eq_getElem?, hr]
                  rw [hcs, except_bind_error] at h
                  exact Except.noConfusion h
              | some r1 =>
                  have hcs : ctxStep pdf cites cm pa =
                      .ok (updateKey d (appendAt pa.1
                        (subNewlineSpace (pdf.textAt pa.1 (ctxRect r1)))) cm) := by
                    simp [ctxStep, hg, hd, hdc, List.get?_eq_getElem?, hr]
                  have hls : locStep l pa =
                      updateKey d (appendAt pa.1 (pa.2.rect.getD [])) l := by
                    simp [locStep, hg, hd, hdl]
                  rw [hcs, except_bind_ok] at h
                  rw [hls]
                  refine ih _ _ m (aligned_updateKey d pa.1 _ _ hal) ?_ h
                  rw [updateKey_map_fst]
                  exact hkeys
            · have hdl : ¬ (alookup d l).isSome = true := by
                rw [alookup_isSome_iff_mem, hkeys]
                exact hdc
              have hcs : ctxStep pdf cites cm pa = .ok cm := by
                simp [ctxStep, hg, hd, hdc]
              have hls : locStep l pa = l := by
                simp [locStep, hg, hd, hdl]
              rw [hcs, except_bind_ok] at h
              rw [hls]
              exact ih l cm m hal hkeys h
      · have hcs : ctxStep pdf cites cm pa = .ok cm := by
          simp [ctxStep, hg]
        have hls : locStep l pa = l := by
          simp [locStep, hg]
        rw [hcs, except_bind_ok] at h
        rw [hls]
        exact ih l cm m hal hkeys h

theorem alookup_map_snd {α : Type u} {β γ : Type v} [DecidableEq α]
    (g : β → γ) (k : α) :
    ∀ l : List (α × β),
      alookup k (l.map (fun x => (x.1, g x.2))) = (alookup k l).map g := by
  intro l
  induction l with
  | nil => rfl
  | cons p rest ih =>
      by_cases hp : p.1 = k <;> simp [alookup, hp, ih]

theorem pageListAligned_shape
    {pl : List (Nat × List (List Int))} {pc : List (Nat × List String)}
    (h : PageListAligned pl pc) :
    pl.map (fun x => (x.1, x.2.length)) = pc.map (fun y => (y.1, y.2.length)) := by
  induction h with
  | nil => rfl
  | cons hxy _ ih => simp only [List.map_cons, hxy.1, hxy.2, ih]

theorem aligned_alookup_shape
    {l : List (String × List (Nat × List (List Int)))}
    {c : List (String × List (Nat × List String))} (h : Aligned l c)
    (k : String) :
    (alookup k l).map (fun pl => pl.map (fun x => (x.1, x.2.length))) =
      (alookup k c).map (fun pc => pc.map (fun y => (y.1, y.2.length))) := by
  induction h with
  | nil => rfl
  | @cons a b l2 c2 hab _ ih =>
      by_cases ha : a.1 = k
      · have hb : b.1 = k := by rw [← hab.1]; exact ha
        simp only [alookup_cons, if_pos ha, if_pos hb, Option.map_some']
        rw [pageListAligned_shape hab.2]
      · have hb : ¬ b.1 = k := by rw [← hab.1]; exact ha
        simp only [alookup_cons, if_neg ha, if_neg hb]
        exact ih

theorem map_fst_init (cites : List String) :
    ((cites.map fun c =>
      (c, ([] : List (Nat × List (List Int))))).map Prod.fst) = cites := by
  induction cites with
  | nil => rfl
  | cons a t ih => simp only [List.map_cons]; rw [ih]

/-- Claim C1: whenever the context scan succeeds, the location map and the
    context-window map built from the same document and citation keys
    have the same keys (so every key of the location map is present in
    the context-window map), and for every citation key and page index
    the rectangle list and the snippet list have equal length (both
    being absent for pages with no occurrence). -/
theorem location_context_alignment (pdf : PdfDoc) (cites : List String)
    (m : List (String × List (Nat × List String)))
    (h : extract_citation_context pdf cites = .ok m) :
    (extract_citation_locations pdf cites).map Prod.fst = m.map Prod.fst ∧
      ∀ (cite : String) (page : Nat),
        ((alookup cite (extract_citation_locations pdf cites)).bind
            (fun pm => alookup page pm)).map List.length =
          ((alookup cite m).bind (fun pm => alookup page pm)).map List.length := by
  have hkeys := map_fst_init cites
  have hal : Aligned (extract_citation_locations pdf cites) m := by
    unfold extract_citation_locations
    exact scan_fold_aligned pdf cites (annotStream pdf) _ _ m
      (aligned_init cites) hkeys h
  refine ⟨aligned_map_fst hal, ?_⟩
  intro cite page
  have hshape := aligned_alookup_shape hal cite
  cases hl : alookup cite (extract_citation_locations pdf cites) with
  | none =>
      rw [hl] at hshape
      cases hc : alookup cite m with
      | none => rfl
      | some pc => rw [hc] at hshape; exact Option.noConfusion hshape
  | some pl =>
      rw [hl] at hshape
      cases hc : alookup cite m with
      | none => rw [hc] at hshape; exact Option.noConfusion hshape
      | some pc =>
          rw [hc] at hshape
          simp only [Option.map_some', Option.some.injEq] at hshape
          show (alookup page pl).map List.length =
            (alookup page pc).map List.length
          have h1 := alookup_map_snd (List.length : List (List Int) → Nat) page pl
          have h2 := alookup_map_snd (List.length : List String → Nat) page pc
          rw [← h1, ← h2, hshape]

/-- A one-page document with one well-formed link annotation for cite1
    and one non-link annotation that both scans must skip. -/
def pdfC1 : PdfDoc :=
  { pages := [{ objId := 0, mediaboxHeight := 792,
                annots := some
                  [{ subtype := some "/Link", actionS := some "/GoTo",
                     actionD := some "cite1", rect := some [10, 20, 30, 40] },
                   { subtype := some "/Widget", actionS := none,
                     actionD := none, rect := some [1, 2, 3, 4] }] }]
    namedDests := [("cite1", { left := 100, top := 200, pageId := 0 })]
    textAt := fun _ _ => "T" }

/-- Witness for C1 on a concrete document. -/
theorem location_context_alignment_witness :
    (extract_citation_locations pdfC1 ["cite1"]).map Prod.fst =
        ([("cite1", [(0, ["T"])])] :
          List (String × List (Nat × List String))).map Prod.fst ∧
      ∀ (cite : String) (page : Nat),
        ((alookup cite (extract_citation_locations pdfC1 ["cite1"])).bind
            (fun pm => alookup page pm)).map List.length =
          ((alookup cite [("cite1", [(0, ["T"])])]).bind
            (fun pm => alookup page pm)).map List.length :=
  location_context_alignment pdfC1 ["cite1"] [("cite1", [(0, ["T"])])] rfl

end Contextify
